import Mathlib

/-!
Verification of the Minimarket Aurelion commercial-analytics pipeline
(`02_commercial_analytics_churn/2. programa.py`).

The orchestrator (schema validation, product-name enrichment, pipeline
sequencing, fastmode) is embedded directly from the source file.  The
worker functions it imports from `aurelion.pipeline_utils`
(`clasificacion_abc`, `top5_productos_por_importe`, `medios_pago_pct`,
`clean_all`, `integrate`, `validate_referential_integrity`,
`ticket_promedio_mensual`) are not part of the repository sources, so they
are modelled from the specification; each such definition carries a doc
comment saying so.

Monetary and quantity fields use ℚ as the canonical numeric
representation; identifiers are ℕ; dates are (year, month, day) triples.
-/

/-- Date as (year, month, day). -/
abbrev Fecha := Nat × Nat × Nat

/-- Row of the productos table as loaded (numeric fields may have failed
coercion, hence `Option`). -/
structure Producto where
  id_producto : Nat
  nombre_producto : String
  categoria : String
  precio_unitario : Option ℚ
deriving DecidableEq, Repr

/-- Row of the clientes table as loaded. -/
structure Cliente where
  id_cliente : Nat
  nombre_cliente : String
  email : String
  ciudad : String
  fecha_alta : Option Fecha
deriving DecidableEq, Repr

/-- Row of the ventas table as loaded. -/
structure Venta where
  id_venta : Nat
  fecha : Option Fecha
  id_cliente : Nat
  medio_pago : String
  canal : String
deriving DecidableEq, Repr

/-- Row of the detalle_ventas table as loaded.  `nombre_producto` is the
optional denormalized product-name column. -/
structure Detalle where
  id_venta : Nat
  id_producto : Nat
  nombre_producto : Option String
  cantidad : Option ℚ
  precio_unitario : Option ℚ
  importe : Option ℚ
deriving DecidableEq, Repr

/-- Denormalized fact row produced by the Integrator: one row per sold
line, carrying the sale date, customer, payment method, channel and the
product attributes. -/
structure FactRow where
  id_venta : Nat
  fecha : Fecha
  id_cliente : Nat
  medio_pago : String
  canal : String
  id_producto : Nat
  nombre_producto : String
  cantidad : ℚ
  precio_unitario : ℚ
  importe : ℚ
deriving DecidableEq, Repr

/-! ### Generic insertion sort (used to embed pandas sort_values) -/

/-- Insert `x` into `l`, placing it before the first element `y` with
`le x y = true`. -/
def insertLe {α : Type} (le : α → α → Bool) (x : α) : List α → List α
  | [] => [x]
  | y :: ys => if le x y then x :: y :: ys else y :: insertLe le x ys

/-- Insertion sort by the boolean relation `le`. -/
def sortLe {α : Type} (le : α → α → Bool) (l : List α) : List α :=
  l.foldr (insertLe le) []

theorem insertLe_perm {α : Type} (le : α → α → Bool) (x : α) (l : List α) :
    List.Perm (insertLe le x l) (x :: l) := by
  induction l with
  | nil => simp [insertLe]
  | cons y ys ih =>
    by_cases h : le x y
    · simp [insertLe, h]
    · rw [insertLe, if_neg (by simp [h])]
      exact List.Perm.trans (List.Perm.cons y ih) (List.Perm.swap x y ys)

theorem sortLe_perm {α : Type} (le : α → α → Bool) (l : List α) :
    List.Perm (sortLe le l) l := by
  induction l with
  | nil => simp [sortLe]
  | cons a as ih =>
    exact List.Perm.trans (insertLe_perm le a _) (List.Perm.cons a ih)

theorem insertLe_pairwise {α : Type} (le : α → α → Bool)
    (htot : ∀ a b, le a b = true ∨ le b a = true)
    (htr : ∀ a b c, le a b = true → le b c = true → le a c = true)
    (x : α) (l : List α)
    (hl : l.Pairwise (fun a b => le a b = true)) :
    (insertLe le x l).Pairwise (fun a b => le a b = true) := by
  induction l with
  | nil => simp [insertLe]
  | cons y ys ih =>
    rcases List.pairwise_cons.mp hl with ⟨hy, hys⟩
    by_cases h : le x y
    · rw [insertLe, if_pos h]
      refine List.pairwise_cons.mpr ⟨?_, hl⟩
      intro z hz
      rcases List.mem_cons.mp hz with hz | hz
      · exact hz ▸ h
      · exact htr x y z h (hy z hz)
    · rw [insertLe, if_neg (by simp [h])]
      refine List.pairwise_cons.mpr ⟨?_, ih hys⟩
      intro z hz
      have hz2 := (insertLe_perm le x ys).mem_iff.mp hz
      rcases List.mem_cons.mp hz2 with hz2 | hz2
      · rcases htot x y with hxy | hyx
        · exact absurd hxy h
        · rw [hz2]; exact hyx
      · exact hy z hz2

theorem sortLe_pairwise {α : Type} (le : α → α → Bool)
    (htot : ∀ a b, le a b = true ∨ le b a = true)
    (htr : ∀ a b c, le a b = true → le b c = true → le a c = true)
    (l : List α) :
    (sortLe le l).Pairwise (fun a b => le a b = true) := by
  induction l with
  | nil => simp [sortLe]
  | cons a as ih => exact insertLe_pairwise le htot htr a _ ih

/-! ### Generic group-and-sum (used to embed pandas groupby(...).sum()) -/

/-- Add value `v` under key `k` to an association list of running sums. -/
def addToGroup {κ : Type} [DecidableEq κ] (k : κ) (v : ℚ) :
    List (κ × ℚ) → List (κ × ℚ)
  | [] => [(k, v)]
  | (k1, v1) :: rest =>
      if k = k1 then (k1, v1 + v) :: rest else (k1, v1) :: addToGroup k v rest

/-- Group the elements of `l` by `key`, summing `val` within each group. -/
def groupSum {α κ : Type} [DecidableEq κ] (key : α → κ) (val : α → ℚ) :
    List α → List (κ × ℚ)
  | [] => []
  | a :: rest => addToGroup (key a) (val a) (groupSum key val rest)

/-- Total of the values recorded under key `k` in an association list. -/
def lookupTotal {κ : Type} [DecidableEq κ] (g : List (κ × ℚ)) (k : κ) : ℚ :=
  ((g.filter (fun e => e.1 = k)).map (fun e => e.2)).sum

/-- True total of `val` over the elements of `l` whose key is `k`. -/
def sumVals {α κ : Type} [DecidableEq κ] (key : α → κ) (val : α → ℚ)
    (l : List α) (k : κ) : ℚ :=
  ((l.filter (fun a => key a = k)).map val).sum

theorem lookupTotal_nil {κ : Type} [DecidableEq κ] (k : κ) :
    lookupTotal ([] : List (κ × ℚ)) k = 0 := by
  simp [lookupTotal]

theorem lookupTotal_cons {κ : Type} [DecidableEq κ]
    (k1 : κ) (v1 : ℚ) (g : List (κ × ℚ)) (k : κ) :
    lookupTotal ((k1, v1) :: g) k
      = (if k1 = k then v1 else 0) + lookupTotal g k := by
  by_cases h : k1 = k
  · simp [lookupTotal, List.filter_cons, h]
  · simp [lookupTotal, List.filter_cons, h]

theorem lookupTotal_addToGroup {κ : Type} [DecidableEq κ]
    (g : List (κ × ℚ)) (k k1 : κ) (v : ℚ) :
    lookupTotal (addToGroup k v g) k1
      = lookupTotal g k1 + (if k = k1 then v else 0) := by
  induction g with
  | nil =>
    rw [addToGroup, lookupTotal_cons, lookupTotal_nil]
    ring
  | cons e rest ih =>
    obtain ⟨ke, ve⟩ := e
    by_cases hk : k = ke
    · subst hk
      rw [addToGroup, if_pos rfl, lookupTotal_cons, lookupTotal_cons]
      by_cases h1 : k = k1
      · rw [if_pos h1, if_pos h1, if_pos h1]; ring
      · rw [if_neg h1, if_neg h1, if_neg h1]; ring
    · rw [addToGroup, if_neg hk, lookupTotal_cons, lookupTotal_cons, ih]
      ring

theorem lookupTotal_groupSum {α κ : Type} [DecidableEq κ]
    (key : α → κ) (val : α → ℚ) (l : List α) (k : κ) :
    lookupTotal (groupSum key val l) k = sumVals key val l k := by
  induction l with
  | nil => simp [groupSum, lookupTotal, sumVals]
  | cons a rest ih =>
    rw [groupSum, lookupTotal_addToGroup, ih]
    by_cases h : key a = k
    · simp [sumVals, List.filter_cons, h]; ring
    · simp [sumVals, List.filter_cons, h]

theorem sum_addToGroup {κ : Type} [DecidableEq κ]
    (g : List (κ × ℚ)) (k : κ) (v : ℚ) :
    ((addToGroup k v g).map (fun e => e.2)).sum
      = (g.map (fun e => e.2)).sum + v := by
  induction g with
  | nil => simp [addToGroup]
  | cons e rest ih =>
    obtain ⟨ke, ve⟩ := e
    by_cases hk : k = ke
    · subst hk; simp [addToGroup]; ring
    · simp [addToGroup, hk, ih]; ring

theorem sum_groupSum {α κ : Type} [DecidableEq κ]
    (key : α → κ) (val : α → ℚ) (l : List α) :
    ((groupSum key val l).map (fun e => e.2)).sum = (l.map val).sum := by
  induction l with
  | nil => simp [groupSum]
  | cons a rest ih => rw [groupSum, sum_addToGroup, ih]; simp; ring

theorem keys_addToGroup {κ : Type} [DecidableEq κ]
    (g : List (κ × ℚ)) (k : κ) (v : ℚ) (k1 : κ) :
    (k1 ∈ (addToGroup k v g).map (fun e => e.1))
      ↔ (k1 = k ∨ k1 ∈ g.map (fun e => e.1)) := by
  induction g with
  | nil => simp [addToGroup]
  | cons e rest ih =>
    obtain ⟨ke, ve⟩ := e
    by_cases hk : k = ke
    · subst hk
      rw [addToGroup, if_pos rfl]
      simp only [List.map_cons, List.mem_cons]
      tauto
    · rw [addToGroup, if_neg hk]
      simp only [List.map_cons, List.mem_cons, ih]
      tauto

theorem nodupKeys_addToGroup {κ : Type} [DecidableEq κ]
    (g : List (κ × ℚ)) (k : κ) (v : ℚ)
    (hg : (g.map (fun e => e.1)).Nodup) :
    ((addToGroup k v g).map (fun e => e.1)).Nodup := by
  induction g with
  | nil => simp [addToGroup]
  | cons e rest ih =>
    obtain ⟨ke, ve⟩ := e
    simp only [List.map_cons, List.nodup_cons] at hg
    by_cases hk : k = ke
    · subst hk
      rw [addToGroup, if_pos rfl]
      simp only [List.map_cons, List.nodup_cons]
      exact hg
    · rw [addToGroup, if_neg hk]
      simp only [List.map_cons, List.nodup_cons]
      constructor
      · intro hmem
        rcases (keys_addToGroup rest k v ke).mp hmem with h | h
        · exact hk h.symm
        · exact hg.1 h
      · exact ih hg.2

theorem nodupKeys_groupSum {α κ : Type} [DecidableEq κ]
    (key : α → κ) (val : α → ℚ) (l : List α) :
    ((groupSum key val l).map (fun e => e.1)).Nodup := by
  induction l with
  | nil => simp [groupSum]
  | cons a rest ih => exact nodupKeys_addToGroup _ _ _ ih

theorem mem_of_nodupKeys {κ : Type} [DecidableEq κ]
    (g : List (κ × ℚ)) (hg : (g.map (fun e => e.1)).Nodup)
    (e : κ × ℚ) (he : e ∈ g) : e.2 = lookupTotal g e.1 := by
  induction g with
  | nil => simp at he
  | cons f rest ih =>
    simp only [List.map_cons, List.nodup_cons] at hg
    rcases List.mem_cons.mp he with he | he
    · subst he
      simp only [lookupTotal, List.filter_cons, decide_eq_true_eq, if_pos rfl,
        List.map_cons, List.sum_cons]
      have : (rest.filter (fun x => x.1 = e.1)) = [] := by
        rw [List.filter_eq_nil_iff]
        intro b hb
        simp only [decide_eq_true_eq]
        intro hbe
        exact hg.1 (hbe ▸ (List.mem_map_of_mem (fun x => x.1) hb))
      simp [this]
    · have hne : f.1 ≠ e.1 := by
        intro hfe
        exact hg.1 (hfe ▸ (List.mem_map_of_mem (fun x => x.1) he))
      simp only [lookupTotal, List.filter_cons, decide_eq_true_eq, hne, if_false]
      exact ih hg.2 he

/-! ### ABC classification (Metrics Engine) -/

/-- Class label from the previous and current cumulative revenue share:
"A" while cumulative share ≤ 80%, "B" while ≤ 95%, "C" otherwise, where
the entity that crosses a threshold (previous share still below it) is
included in the class whose boundary it crosses. -/
def abcClass (prevShare cumShare : ℚ) : String :=
  if cumShare ≤ 80 / 100 ∨ prevShare < 80 / 100 then "A"
  else if cumShare ≤ 95 / 100 ∨ prevShare < 95 / 100 then "B"
  else "C"

/-- Descending-by-revenue comparison used to sort the aggregated revenues. -/
def revLe {κ : Type} (a b : κ × ℚ) : Bool := decide (b.2 ≤ a.2)

/-- Label a revenue-sorted list, threading the cumulative revenue `acc`
accumulated by the entities already labelled. -/
def abcLabel {κ : Type} (total : ℚ) : ℚ → List (κ × ℚ) → List (κ × ℚ × String)
  | _, [] => []
  | acc, (k, r) :: rest =>
      (k, r, abcClass (acc / total) ((acc + r) / total))
        :: abcLabel total (acc + r) rest

/-- Modelled from the spec: `clasificacion_abc` lives in
`aurelion.pipeline_utils`, which is not among the repository sources.  Per
the spec, given a mapping from entity identifier to total revenue it sorts
entities descending by revenue, computes cumulative revenue share, and
assigns "A" while cumulative share ≤ 80%, "B" while ≤ 95%, "C" otherwise,
the entity that crosses a threshold being included in the class whose
boundary it crosses (so a single entity is always "A"). -/
def clasificacion_abc {κ : Type} (importes : List (κ × ℚ)) :
    List (κ × ℚ × String) :=
  abcLabel ((importes.map (fun e => e.2)).sum) 0 (sortLe revLe importes)

theorem abcLabel_map_proj {κ : Type} (total : ℚ) (acc : ℚ)
    (s : List (κ × ℚ)) :
    (abcLabel total acc s).map (fun e => (e.1, e.2.1)) = s := by
  induction s generalizing acc with
  | nil => simp [abcLabel]
  | cons e rest ih =>
    obtain ⟨k, r⟩ := e
    simp [abcLabel, ih]

theorem abcLabel_get? {κ : Type} (total : ℚ) (s : List (κ × ℚ)) :
    ∀ (acc : ℚ) (i : Nat),
    (abcLabel total acc s).get? i
      = (s.get? i).map (fun kr =>
          (kr.1, kr.2,
           abcClass ((acc + ((s.take i).map (fun e => e.2)).sum) / total)
             ((acc + ((s.take (i + 1)).map (fun e => e.2)).sum) / total))) := by
  induction s with
  | nil => intro acc i; simp [abcLabel]
  | cons e rest ih =>
    obtain ⟨k, r⟩ := e
    intro acc i
    cases i with
    | zero => simp [abcLabel]
    | succ j =>
      simp only [abcLabel, List.get?_cons_succ, List.take_succ_cons,
        List.map_cons, List.sum_cons]
      rw [ih (acc + r) j]
      cases rest.get? j with
      | none => rfl
      | some kr =>
        simp only [Option.map_some']
        congr 3
        ring_nf

theorem revLe_total {κ : Type} :
    ∀ a b : κ × ℚ, revLe a b = true ∨ revLe b a = true := by
  intro a b
  simp only [revLe, decide_eq_true_eq]
  exact le_total b.2 a.2

theorem revLe_trans {κ : Type} :
    ∀ a b c : κ × ℚ, revLe a b = true → revLe b c = true →
      revLe a c = true := by
  intro a b c
  simp only [revLe, decide_eq_true_eq]
  intro h1 h2
  exact le_trans h2 h1

/-- C1: For every mapping from entity identifier to total revenue, the ABC
classification sorts entities descending by revenue (the output projects
back to a permutation of the input and is pairwise descending in revenue),
computes cumulative revenue share over the sorted order, and labels each
position by `abcClass` applied to the previous and current cumulative
share ("A" while ≤ 80%, "B" while ≤ 95%, "C" otherwise, the crossing
entity included in the class whose boundary it crosses); a single-entity
input is always labelled "A" and an empty input yields an empty result. -/
theorem clasificacion_abc_correct {κ : Type} (importes : List (κ × ℚ)) :
    (importes = [] → clasificacion_abc importes = []) ∧
    (∀ (k : κ) (r : ℚ), importes = [(k, r)] →
      clasificacion_abc importes = [(k, r, "A")]) ∧
    List.Perm ((clasificacion_abc importes).map (fun e => (e.1, e.2.1)))
      importes ∧
    (clasificacion_abc importes).Pairwise (fun a b => b.2.1 ≤ a.2.1) ∧
    (∀ i : Nat,
      ((clasificacion_abc importes).get? i).map (fun e => e.2.2)
        = ((sortLe revLe importes).get? i).map (fun _ =>
            abcClass
              ((((sortLe revLe importes).take i).map (fun e => e.2)).sum
                / (importes.map (fun e => e.2)).sum)
              ((((sortLe revLe importes).take (i + 1)).map
                  (fun e => e.2)).sum
                / (importes.map (fun e => e.2)).sum))) := by
  refine ⟨?_, ?_, ?_, ?_, ?_⟩
  · intro h
    subst h
    rfl
  · intro k r h
    subst h
    show abcLabel _ 0 (sortLe revLe [(k, r)]) = _
    norm_num [sortLe, insertLe, abcLabel, abcClass]
  · simp only [clasificacion_abc]
    rw [abcLabel_map_proj]
    exact sortLe_perm revLe importes
  · have hp := sortLe_pairwise revLe revLe_total revLe_trans importes
    have hmap := abcLabel_map_proj ((importes.map (fun e => e.2)).sum) 0
      (sortLe revLe importes)
    rw [← hmap] at hp
    have h2 := List.pairwise_map.mp hp
    simp only [clasificacion_abc]
    refine h2.imp ?_
    intro a b hab
    simpa [revLe] using hab
  · intro i
    simp only [clasificacion_abc]
    rw [abcLabel_get?, Option.map_map]
    cases (sortLe revLe importes).get? i with
    | none => rfl
    | some kr => simp

/-- Witness for C1: concrete single-entity and empty inputs. -/
theorem clasificacion_abc_correct_witness :
    clasificacion_abc [((1 : Nat), (6 : ℚ))] = [(1, 6, "A")] ∧
    clasificacion_abc ([] : List (Nat × ℚ)) = [] :=
  ⟨(clasificacion_abc_correct [((1 : Nat), (6 : ℚ))]).2.1 1 6 rfl,
   (clasificacion_abc_correct ([] : List (Nat × ℚ))).1 rfl⟩

/-! ### Top-5 products by amount (Metrics Engine) -/

/-- Aggregated per-product revenue entry produced by the Top-5 metric. -/
structure ProdTotal where
  id_producto : Nat
  nombre_producto : String
  total : ℚ
deriving DecidableEq, Repr

/-- Ranking order of the Top-5 metric: descending by summed amount, ties
broken by product identifier ascending. -/
def top5le (a b : ProdTotal) : Bool :=
  decide (b.total < a.total
    ∨ (a.total = b.total ∧ a.id_producto ≤ b.id_producto))

/-- Modelled from the spec: the per-product aggregation step of
`top5_productos_por_importe` (a function of `aurelion.pipeline_utils`,
absent from the repository sources): group FactRows by product identifier
and name, summing line amounts. -/
def top5_agg (rows : List FactRow) : List ProdTotal :=
  (groupSum (fun r => (r.id_producto, r.nombre_producto))
    (fun r => r.importe) rows).map (fun e => ⟨e.1.1, e.1.2, e.2⟩)

/-- Modelled from the spec: `top5_productos_por_importe` (absent from the
repository sources) groups FactRows by product identifier and name
summing line amounts, sorts descending by summed amount with ties broken
by product identifier ascending, and takes the first 5. -/
def top5_productos_por_importe (rows : List FactRow) : List ProdTotal :=
  (sortLe top5le (top5_agg rows)).take 5

theorem top5le_total :
    ∀ a b : ProdTotal, top5le a b = true ∨ top5le b a = true := by
  intro a b
  simp only [top5le, decide_eq_true_eq]
  rcases lt_trichotomy a.total b.total with h | h | h
  · exact Or.inr (Or.inl h)
  · rcases le_total a.id_producto b.id_producto with h2 | h2
    · exact Or.inl (Or.inr ⟨h, h2⟩)
    · exact Or.inr (Or.inr ⟨h.symm, h2⟩)
  · exact Or.inl (Or.inl h)

theorem top5le_trans :
    ∀ a b c : ProdTotal, top5le a b = true → top5le b c = true →
      top5le a c = true := by
  intro a b c
  simp only [top5le, decide_eq_true_eq]
  intro h1 h2
  rcases h1 with h1 | ⟨h1e, h1i⟩
  · rcases h2 with h2 | ⟨h2e, h2i⟩
    · exact Or.inl (lt_trans h2 h1)
    · exact Or.inl (h2e ▸ h1)
  · rcases h2 with h2 | ⟨h2e, h2i⟩
    · exact Or.inl (h1e ▸ h2)
    · exact Or.inr ⟨h1e.trans h2e, le_trans h1i h2i⟩

/-- C2: For every FactRow set the Top-5 metric returns a sequence sorted
descending by summed amount with ties broken by product identifier
ascending, of length min 5 (number of distinct products), whose entries
carry the true per-product totals, which dominates in the ranking order
every aggregated product left out, and which contains every product when
at most 5 distinct products exist. -/
theorem top5_productos_correct (rows : List FactRow) :
    (top5_productos_por_importe rows).length
      = min 5 (top5_agg rows).length ∧
    (top5_productos_por_importe rows).Pairwise
      (fun a b => b.total < a.total
        ∨ (a.total = b.total ∧ a.id_producto ≤ b.id_producto)) ∧
    (∀ e ∈ top5_productos_por_importe rows,
      e.total = sumVals (fun r => (r.id_producto, r.nombre_producto))
        (fun r => r.importe) rows (e.id_producto, e.nombre_producto)) ∧
    (∀ a ∈ top5_productos_por_importe rows, ∀ b ∈ top5_agg rows,
      b ∉ top5_productos_por_importe rows →
      (b.total < a.total
        ∨ (a.total = b.total ∧ a.id_producto ≤ b.id_producto))) ∧
    ((top5_agg rows).length ≤ 5 →
      ∀ b ∈ top5_agg rows, b ∈ top5_productos_por_importe rows) := by
  have hperm := sortLe_perm top5le (top5_agg rows)
  have hpw := sortLe_pairwise top5le top5le_total top5le_trans (top5_agg rows)
  refine ⟨?_, ?_, ?_, ?_, ?_⟩
  · rw [top5_productos_por_importe, List.length_take, hperm.length_eq]
  · have h1 : (top5_productos_por_importe rows).Pairwise
        (fun a b => top5le a b = true) :=
      hpw.sublist (List.take_sublist 5 _)
    refine h1.imp ?_
    intro a b hab
    simpa [top5le] using hab
  · intro e he
    have h1 : e ∈ sortLe top5le (top5_agg rows) := List.mem_of_mem_take he
    have h2 : e ∈ top5_agg rows := hperm.mem_iff.mp h1
    obtain ⟨pre, hpre, rfl⟩ := List.mem_map.mp h2
    show pre.2 = _
    have h3 := mem_of_nodupKeys _
      (nodupKeys_groupSum (fun r => (r.id_producto, r.nombre_producto))
        (fun r => r.importe) rows) pre hpre
    rw [h3, lookupTotal_groupSum]
  · intro a _ b hb hnb
    have hbs : b ∈ sortLe top5le (top5_agg rows) := hperm.mem_iff.mpr hb
    have hsplit := List.take_append_drop 5 (sortLe top5le (top5_agg rows))
    rw [← hsplit] at hbs hpw
    rcases List.mem_append.mp hbs with hbt | hbd
    · exact absurd hbt hnb
    · have h3 := (List.pairwise_append.mp hpw).2.2
      have h4 : a ∈ (sortLe top5le (top5_agg rows)).take 5 := by
        simpa [top5_productos_por_importe] using ‹a ∈ top5_productos_por_importe rows›
      have := h3 a h4 b hbd
      simpa [top5le] using this
  · intro hle b hb
    have hlen : (sortLe top5le (top5_agg rows)).length ≤ 5 := by
      rw [hperm.length_eq]; exact hle
    rw [top5_productos_por_importe, List.take_of_length_le hlen]
    exact hperm.mem_iff.mpr hb

/-- Concrete fact row used by witnesses (the spec scenario: 3 units of
Bread at 2.0 paid in cash). -/
def factRow0 : FactRow :=
  { id_venta := 100, fecha := (2025, 1, 5), id_cliente := 10,
    medio_pago := "cash", canal := "tienda", id_producto := 1,
    nombre_producto := "Pan", cantidad := 3, precio_unitario := 2,
    importe := 6 }

/-- Concrete fact rows over six distinct products (totals 1..6). -/
def rows6 : List FactRow :=
  [{ factRow0 with id_producto := 1, nombre_producto := "P1", importe := 1 },
   { factRow0 with id_producto := 2, nombre_producto := "P2", importe := 2 },
   { factRow0 with id_producto := 3, nombre_producto := "P3", importe := 3 },
   { factRow0 with id_producto := 4, nombre_producto := "P4", importe := 4 },
   { factRow0 with id_producto := 5, nombre_producto := "P5", importe := 5 },
   { factRow0 with id_producto := 6, nombre_producto := "P6", importe := 6 }]

/-- Witness for C2: with six products the excluded lowest product is
dominated by a ranked one, and with a single product it is returned. -/
theorem top5_productos_correct_witness :
    ((⟨1, "P1", 1⟩ : ProdTotal).total < (⟨6, "P6", 6⟩ : ProdTotal).total
      ∨ ((⟨6, "P6", 6⟩ : ProdTotal).total = (⟨1, "P1", 1⟩ : ProdTotal).total
         ∧ (⟨6, "P6", 6⟩ : ProdTotal).id_producto
             ≤ (⟨1, "P1", 1⟩ : ProdTotal).id_producto)) ∧
    (⟨1, "Pan", 6⟩ : ProdTotal) ∈ top5_productos_por_importe [factRow0] :=
  ⟨(top5_productos_correct rows6).2.2.2.1 ⟨6, "P6", 6⟩ (by decide)
      ⟨1, "P1", 1⟩ (by decide) (by decide),
   (top5_productos_correct [factRow0]).2.2.2.2 (by decide)
      ⟨1, "Pan", 6⟩ (by decide)⟩

/-! ### Payment-method percentage share (Metrics Engine) -/

/-- Modelled from the spec: `medios_pago_pct` (a function of
`aurelion.pipeline_utils`, absent from the repository sources) groups
FactRows by payment method summing line amounts, divides each group sum by
the grand total amount and expresses it as a percentage; when the grand
total is zero it returns an empty distribution instead of dividing by
zero. -/
def medios_pago_pct (rows : List FactRow) : List (String × ℚ) :=
  if (rows.map (fun r => r.importe)).sum = 0 then []
  else (groupSum (fun r => r.medio_pago) (fun r => r.importe) rows).map
    (fun e => (e.1, e.2 / (rows.map (fun r => r.importe)).sum * 100))

theorem sum_map_div_mul (l : List ℚ) (t c : ℚ) :
    (l.map (fun x => x / t * c)).sum = l.sum / t * c := by
  induction l with
  | nil => simp
  | cons x xs ih =>
    simp only [List.map_cons, List.sum_cons, ih]
    ring

theorem sublist_sum_le (l1 l2 : List ℚ) (hs : l1.Sublist l2)
    (hn : ∀ x ∈ l2, 0 ≤ x) : l1.sum ≤ l2.sum := by
  induction hs with
  | slnil => simp
  | cons b hs ih =>
    have hb : 0 ≤ b := hn b (List.mem_cons_self _ _)
    have := ih (fun x hx => hn x (List.mem_cons_of_mem b hx))
    simp only [List.sum_cons]
    linarith
  | cons₂ b hs ih =>
    have := ih (fun x hx => hn x (List.mem_cons_of_mem b hx))
    simp only [List.sum_cons]
    linarith

/-- C3: For every FactRow set with non-zero grand total, each payment
method receives its summed amount divided by the grand total as a
percentage, the percentages sum to exactly 100, and (for non-negative
amounts) each lies in [0, 100]; a zero grand total (in particular the
empty set) yields an empty distribution. -/
theorem medios_pago_pct_correct (rows : List FactRow) :
    ((rows.map (fun r => r.importe)).sum = 0 → medios_pago_pct rows = []) ∧
    ((rows.map (fun r => r.importe)).sum ≠ 0 →
      ((medios_pago_pct rows).map (fun e => e.2)).sum = 100 ∧
      (∀ e ∈ medios_pago_pct rows,
        e.2 = sumVals (fun r => r.medio_pago) (fun r => r.importe) rows e.1
          / (rows.map (fun r => r.importe)).sum * 100) ∧
      ((∀ r ∈ rows, 0 ≤ r.importe) →
        ∀ e ∈ medios_pago_pct rows, 0 ≤ e.2 ∧ e.2 ≤ 100)) := by
  constructor
  · intro h
    rw [medios_pago_pct, if_pos h]
  · intro h
    rw [medios_pago_pct, if_neg h]
    refine ⟨?_, ?_, ?_⟩
    · have key : ∀ (g : List (String × ℚ)) (t : ℚ),
          ((g.map (fun e => (e.1, e.2 / t * 100))).map (fun e => e.2)).sum
            = (g.map (fun e => e.2)).sum / t * 100 := by
        intro g t
        induction g with
        | nil => simp
        | cons x xs ih =>
          simp only [List.map_cons, List.sum_cons, ih]
          ring
      rw [key, sum_groupSum, div_self h]
      norm_num
    · intro e he
      obtain ⟨pre, hpre, rfl⟩ := List.mem_map.mp he
      show pre.2 / _ * 100 = _
      have h3 := mem_of_nodupKeys _
        (nodupKeys_groupSum (fun r => r.medio_pago) (fun r => r.importe)
          rows) pre hpre
      rw [h3, lookupTotal_groupSum]
    · intro hn e he
      obtain ⟨pre, hpre, rfl⟩ := List.mem_map.mp he
      have h3 := mem_of_nodupKeys _
        (nodupKeys_groupSum (fun r => r.medio_pago) (fun r => r.importe)
          rows) pre hpre
      have hs : pre.2 = sumVals (fun r => r.medio_pago)
          (fun r => r.importe) rows pre.1 := by
        rw [h3, lookupTotal_groupSum]
      have hnn : ∀ x ∈ rows.map (fun r => r.importe), 0 ≤ x := by
        intro x hx
        obtain ⟨r, hr, rfl⟩ := List.mem_map.mp hx
        exact hn r hr
      have htn : 0 ≤ (rows.map (fun r => r.importe)).sum :=
        List.sum_nonneg hnn
      have htp : 0 < (rows.map (fun r => r.importe)).sum :=
        lt_of_le_of_ne htn (Ne.symm h)
      have h0 : 0 ≤ pre.2 := by
        rw [hs, sumVals]
        refine List.sum_nonneg ?_
        intro x hx
        obtain ⟨r, hr, rfl⟩ := List.mem_map.mp hx
        exact hn r (List.mem_of_mem_filter hr)
      have hle : pre.2 ≤ (rows.map (fun r => r.importe)).sum := by
        rw [hs, sumVals]
        refine sublist_sum_le _ _ ?_ hnn
        exact List.Sublist.map (fun r => r.importe)
          (List.filter_sublist rows)
      constructor
      · show 0 ≤ pre.2 / _ * 100
        positivity
      · show pre.2 / _ * 100 ≤ 100
        have hd : pre.2 / (rows.map (fun r => r.importe)).sum ≤ 1 :=
          (div_le_one htp).mpr hle
        nlinarith

/-- Witness for C3: on the single cash fact row the distribution is
well-defined, sums to 100 and the cash entry is within range. -/
theorem medios_pago_pct_factRow0 :
    medios_pago_pct [factRow0] = [("cash", 100)] := by
  norm_num [medios_pago_pct, factRow0, groupSum, addToGroup]

theorem medios_pago_pct_correct_witness :
    ¬ (([factRow0].map (fun r => r.importe)).sum = 0) ∧
    ((medios_pago_pct [factRow0]).map (fun e => e.2)).sum = 100 ∧
    (0 ≤ (("cash", (100 : ℚ))).2 ∧ (("cash", (100 : ℚ))).2 ≤ 100) :=
  ⟨by norm_num [factRow0],
   ((medios_pago_pct_correct [factRow0]).2 (by norm_num [factRow0])).1,
   ((medios_pago_pct_correct [factRow0]).2 (by norm_num [factRow0])).2.2
     (by norm_num [factRow0]) ("cash", (100 : ℚ))
     (by rw [medios_pago_pct_factRow0]; exact List.mem_singleton.mpr rfl)⟩

/-! ### Per-product aggregates of calcular_metricas -/

/-- Per-product revenue aggregate computed by `calcular_metricas`
(source line 251: groupby on id_producto and nombre_producto, summing
importe) and fed to the ABC classification. -/
def productos_importe (rows : List FactRow) : List ((Nat × String) × ℚ) :=
  groupSum (fun r => (r.id_producto, r.nombre_producto))
    (fun r => r.importe) rows

/-- Per-customer revenue aggregate computed by `calcular_metricas`
(source line 252) and fed to the ABC classification. -/
def clientes_importe (rows : List FactRow) : List (Nat × ℚ) :=
  groupSum (fun r => r.id_cliente) (fun r => r.importe) rows

/-- C6: For every fact table, the per-product aggregation consumed by the
Top-5 metric and the one consumed by the ABC classification assign the
same total to every product, and both equal the true per-product sum of
line amounts. -/
theorem product_totals_consistent (rows : List FactRow) (k : Nat × String) :
    lookupTotal (productos_importe rows) k
      = lookupTotal ((top5_agg rows).map
          (fun e => ((e.id_producto, e.nombre_producto), e.total))) k ∧
    lookupTotal (productos_importe rows) k
      = sumVals (fun r => (r.id_producto, r.nombre_producto))
          (fun r => r.importe) rows k := by
  constructor
  · have hmap : (top5_agg rows).map
        (fun e => ((e.id_producto, e.nombre_producto), e.total))
        = productos_importe rows := by
      rw [top5_agg, List.map_map, productos_importe]
      have : ((fun e : ProdTotal =>
          ((e.id_producto, e.nombre_producto), e.total))
            ∘ fun e : (Nat × String) × ℚ => ProdTotal.mk e.1.1 e.1.2 e.2)
          = id := by
        funext e
        rfl
      rw [this, List.map_id]
    rw [hmap]
  · rw [productos_importe, lookupTotal_groupSum]

/-! ### Schema validation (cargar_datasets, source lines 148-180) -/

/-- Column sets of the four loaded tables. -/
structure TablasCargadas where
  productos_cols : List String
  clientes_cols : List String
  ventas_cols : List String
  detalle_cols : List String
deriving DecidableEq, Repr

/-- Required columns per table (source lines 149-154), in the iteration
order of the Python dict. -/
def columnas_esperadas : List (String × List String) :=
  [("productos",
    ["id_producto", "nombre_producto", "categoria", "precio_unitario"]),
   ("clientes",
    ["id_cliente", "nombre_cliente", "email", "ciudad", "fecha_alta"]),
   ("ventas", ["id_venta", "fecha", "id_cliente", "medio_pago", "canal"]),
   ("detalle",
    ["id_venta", "id_producto", "cantidad", "precio_unitario", "importe"])]

/-- Optional columns per table (source lines 155-157). -/
def columnas_opcionales (tabla : String) : List String :=
  if tabla = "detalle" then ["nombre_producto"] else []

/-- Columns of the named table in the loaded data (source lines 160-165). -/
def colsDe (t : TablasCargadas) (tabla : String) : List String :=
  if tabla = "productos" then t.productos_cols
  else if tabla = "clientes" then t.clientes_cols
  else if tabla = "ventas" then t.ventas_cols
  else t.detalle_cols

/-- Fatal schema error raised at source line 171: the offending table and
its missing required columns. -/
structure SchemaError where
  tabla : String
  faltantes : List String
deriving DecidableEq, Repr

/-- Missing required columns of one table, optional columns excluded,
exactly as computed at source lines 167-168. -/
def faltantes_requeridos (oblig opc present : List String) : List String :=
  (oblig.filter (fun c => ¬ c ∈ present)).filter (fun c => ¬ c ∈ opc)

/-- Missing optional columns of one table (source line 172). -/
def faltantes_opcionales (opc present : List String) : List String :=
  opc.filter (fun c => ¬ c ∈ present)

/-- Validation loop over the tables (source lines 159-180): raise on the
first table with missing required columns, otherwise collect the
non-fatal optional-column warnings. -/
def validar_columnas_go (t : TablasCargadas) :
    List (String × List String) →
      Except SchemaError (List (String × List String))
  | [] => .ok []
  | (nombre, oblig) :: rest =>
    if faltantes_requeridos oblig (columnas_opcionales nombre)
        (colsDe t nombre) = [] then
      match validar_columnas_go t rest with
      | .error e => .error e
      | .ok warns =>
          .ok (if faltantes_opcionales (columnas_opcionales nombre)
                  (colsDe t nombre) = []
               then warns
               else (nombre,
                 faltantes_opcionales (columnas_opcionales nombre)
                   (colsDe t nombre)) :: warns)
    else
      .error ⟨nombre,
        faltantes_requeridos oblig (columnas_opcionales nombre)
          (colsDe t nombre)⟩

/-- Schema validation of `cargar_datasets` over the four expected tables. -/
def validar_columnas (t : TablasCargadas) :
    Except SchemaError (List (String × List String)) :=
  validar_columnas_go t columnas_esperadas

theorem faltantes_requeridos_eq (oblig opc present : List String)
    (hd : ∀ c ∈ oblig, ¬ c ∈ opc) :
    faltantes_requeridos oblig opc present
      = oblig.filter (fun c => ¬ c ∈ present) := by
  rw [faltantes_requeridos]
  apply List.filter_eq_self.mpr
  intro c hc
  have h1 : c ∈ oblig := List.mem_of_mem_filter hc
  simpa using hd c h1

theorem faltantes_requeridos_nil_iff (oblig opc present : List String)
    (hd : ∀ c ∈ oblig, ¬ c ∈ opc) :
    faltantes_requeridos oblig opc present = []
      ↔ ∀ c ∈ oblig, c ∈ present := by
  rw [faltantes_requeridos_eq oblig opc present hd, List.filter_eq_nil_iff]
  simp

theorem validar_columnas_go_error_iff (t : TablasCargadas)
    (ts : List (String × List String))
    (hd : ∀ p ∈ ts, ∀ c ∈ p.2, ¬ c ∈ columnas_opcionales p.1) :
    (∃ e, validar_columnas_go t ts = .error e)
      ↔ ∃ p ∈ ts, ∃ c ∈ p.2, ¬ c ∈ colsDe t p.1 := by
  induction ts with
  | nil => simp [validar_columnas_go]
  | cons p rest ih =>
    obtain ⟨nombre, oblig⟩ := p
    have hdh : ∀ c ∈ oblig, ¬ c ∈ columnas_opcionales nombre :=
      fun c hc => hd (nombre, oblig) (List.mem_cons_self _ _) c hc
    have hdr : ∀ q ∈ rest, ∀ c ∈ q.2, ¬ c ∈ columnas_opcionales q.1 :=
      fun q hq => hd q (List.mem_cons_of_mem _ hq)
    by_cases hfr : faltantes_requeridos oblig (columnas_opcionales nombre)
        (colsDe t nombre) = []
    · have hall : ∀ c ∈ oblig, c ∈ colsDe t nombre :=
        (faltantes_requeridos_nil_iff _ _ _ hdh).mp hfr
      simp only [validar_columnas_go]
      rw [if_pos hfr]
      cases hgo : validar_columnas_go t rest with
      | error e =>
        constructor
        · intro _
          rcases (ih hdr).mp ⟨e, hgo⟩ with ⟨q, hq, c, hc, hcc⟩
          exact ⟨q, List.mem_cons_of_mem _ hq, c, hc, hcc⟩
        · intro _
          exact ⟨e, rfl⟩
      | ok warns =>
        constructor
        · intro hex
          rcases hex with ⟨e, he⟩
          exact Except.noConfusion he
        · intro hex
          rcases hex with ⟨q, hq, c, hc, hcc⟩
          rcases List.mem_cons.mp hq with hq | hq
          · subst hq
            exact absurd (hall c hc) hcc
          · rcases (ih hdr).mpr ⟨q, hq, c, hc, hcc⟩ with ⟨e, he⟩
            rw [he] at hgo
            exact Except.noConfusion hgo
    · simp only [validar_columnas_go]
      rw [if_neg hfr]
      constructor
      · intro _
        have hx : ∃ c, c ∈ faltantes_requeridos oblig
            (columnas_opcionales nombre) (colsDe t nombre) := by
          cases hh : faltantes_requeridos oblig (columnas_opcionales nombre)
              (colsDe t nombre) with
          | nil => exact absurd hh hfr
          | cons a as => exact ⟨a, hh ▸ List.mem_cons_self a as⟩
        rcases hx with ⟨c, hc⟩
        rw [faltantes_requeridos_eq _ _ _ hdh] at hc
        have hc2 := List.mem_filter.mp hc
        refine ⟨(nombre, oblig), List.mem_cons_self _ _, c, hc2.1, ?_⟩
        simpa using hc2.2
      · intro _
        exact ⟨_, rfl⟩

theorem validar_columnas_go_error_content (t : TablasCargadas)
    (ts : List (String × List String))
    (hd : ∀ p ∈ ts, ∀ c ∈ p.2, ¬ c ∈ columnas_opcionales p.1) :
    ∀ e, validar_columnas_go t ts = .error e →
      ¬ e.faltantes = [] ∧
      ∃ oblig, (e.tabla, oblig) ∈ ts ∧
        ∀ c, c ∈ e.faltantes ↔ (c ∈ oblig ∧ ¬ c ∈ colsDe t e.tabla) := by
  induction ts with
  | nil =>
    intro e he
    exact absurd he (by simp [validar_columnas_go])
  | cons p rest ih =>
    obtain ⟨nombre, oblig⟩ := p
    intro e he
    have hdh : ∀ c ∈ oblig, ¬ c ∈ columnas_opcionales nombre :=
      fun c hc => hd (nombre, oblig) (List.mem_cons_self _ _) c hc
    have hdr : ∀ q ∈ rest, ∀ c ∈ q.2, ¬ c ∈ columnas_opcionales q.1 :=
      fun q hq => hd q (List.mem_cons_of_mem _ hq)
    by_cases hfr : faltantes_requeridos oblig (columnas_opcionales nombre)
        (colsDe t nombre) = []
    · simp only [validar_columnas_go] at he
      rw [if_pos hfr] at he
      cases hgo : validar_columnas_go t rest with
      | error e2 =>
        rw [hgo] at he
        have he2 : e2 = e := by
          simpa using he
        subst he2
        obtain ⟨h1, oblig2, hmem, hiff⟩ := ih hdr e2 hgo
        exact ⟨h1, oblig2, List.mem_cons_of_mem _ hmem, hiff⟩
      | ok warns =>
        rw [hgo] at he
        exact Except.noConfusion he
    · simp only [validar_columnas_go] at he
      rw [if_neg hfr] at he
      have he2 : (⟨nombre, faltantes_requeridos oblig
          (columnas_opcionales nombre) (colsDe t nombre)⟩ : SchemaError)
          = e := by
        simpa using he
      subst he2
      refine ⟨hfr, oblig, List.mem_cons_self _ _, ?_⟩
      intro c
      show c ∈ faltantes_requeridos oblig (columnas_opcionales nombre)
        (colsDe t nombre) ↔ _
      rw [faltantes_requeridos_eq _ _ _ hdh, List.mem_filter]
      simp

theorem validar_columnas_go_ok (t : TablasCargadas)
    (ts : List (String × List String))
    (hpass : ∀ p ∈ ts, faltantes_requeridos p.2 (columnas_opcionales p.1)
      (colsDe t p.1) = []) :
    validar_columnas_go t ts = .ok (ts.filterMap (fun p =>
      if faltantes_opcionales (columnas_opcionales p.1) (colsDe t p.1) = []
      then none
      else some (p.1,
        faltantes_opcionales (columnas_opcionales p.1) (colsDe t p.1)))) := by
  induction ts with
  | nil => rfl
  | cons p rest ih =>
    obtain ⟨nombre, oblig⟩ := p
    have hh := hpass (nombre, oblig) (List.mem_cons_self _ _)
    have hr : ∀ q ∈ rest, faltantes_requeridos q.2 (columnas_opcionales q.1)
        (colsDe t q.1) = [] :=
      fun q hq => hpass q (List.mem_cons_of_mem _ hq)
    simp only [validar_columnas_go]
    rw [if_pos hh, ih hr]
    simp only [List.filterMap_cons]
    by_cases hfo : faltantes_opcionales (columnas_opcionales nombre)
        (colsDe t nombre) = []
    · simp [hfo]
    · simp [hfo]

/-- C4: Schema validation during ingestion fails if and only if some
required column of some table is absent; the raised error names a table
and enumerates exactly its missing required columns; when every required
column is present validation succeeds, returning as warnings exactly the
tables with absent optional columns and those absent optional columns. -/
theorem validar_columnas_correct (t : TablasCargadas) :
    ((∃ e, validar_columnas t = .error e)
      ↔ ∃ p ∈ columnas_esperadas, ∃ c ∈ p.2, ¬ c ∈ colsDe t p.1) ∧
    (∀ e, validar_columnas t = .error e →
      ¬ e.faltantes = [] ∧
      ∃ oblig, (e.tabla, oblig) ∈ columnas_esperadas ∧
        ∀ c, c ∈ e.faltantes ↔ (c ∈ oblig ∧ ¬ c ∈ colsDe t e.tabla)) ∧
    ((∀ p ∈ columnas_esperadas, ∀ c ∈ p.2, c ∈ colsDe t p.1) →
      validar_columnas t = .ok (columnas_esperadas.filterMap (fun p =>
        if faltantes_opcionales (columnas_opcionales p.1)
            (colsDe t p.1) = []
        then none
        else some (p.1, faltantes_opcionales (columnas_opcionales p.1)
          (colsDe t p.1))))) := by
  have hd : ∀ p ∈ columnas_esperadas, ∀ c ∈ p.2,
      ¬ c ∈ columnas_opcionales p.1 := by decide
  refine ⟨validar_columnas_go_error_iff t _ hd,
    validar_columnas_go_error_content t _ hd, ?_⟩
  intro hall
  apply validar_columnas_go_ok
  intro p hp
  exact (faltantes_requeridos_nil_iff _ _ _ (hd p hp)).mpr (hall p hp)

/-- Loaded tables carrying every expected column except the optional
product-name column of detalle. -/
def tablasFull : TablasCargadas :=
  { productos_cols :=
      ["id_producto", "nombre_producto", "categoria", "precio_unitario"],
    clientes_cols :=
      ["id_cliente", "nombre_cliente", "email", "ciudad", "fecha_alta"],
    ventas_cols := ["id_venta", "fecha", "id_cliente", "medio_pago", "canal"],
    detalle_cols :=
      ["id_venta", "id_producto", "cantidad", "precio_unitario", "importe"] }

/-- Loaded tables whose productos table lacks the required categoria
column. -/
def tablasBad : TablasCargadas :=
  { tablasFull with
    productos_cols := ["id_producto", "nombre_producto", "precio_unitario"] }

/-- Witness for C4: the complete tables validate with only the optional
product-name warning, and a missing required column raises the exact
error. -/
theorem validar_columnas_correct_witness :
    validar_columnas tablasFull
      = .ok [("detalle", ["nombre_producto"])] ∧
    validar_columnas tablasBad
      = .error ⟨"productos", ["categoria"]⟩ := by
  constructor
  · have h := (validar_columnas_correct tablasFull).2.2 (by decide)
    rw [h]
    rfl
  · rfl

/-! ### Cleaner (clean_all, modelled from the spec) -/

/-- Drop rows whose key was already seen, keeping the first occurrence in
original order. -/
def dedupByKey {α κ : Type} [DecidableEq κ] (key : α → κ)
    (seen : List κ) : List α → List α
  | [] => []
  | a :: rest =>
      if key a ∈ seen then dedupByKey key seen rest
      else a :: dedupByKey key (key a :: seen) rest

theorem dedupByKey_nodup_aux {α κ : Type} [DecidableEq κ] (key : α → κ) :
    ∀ (l : List α) (seen : List κ),
      ((dedupByKey key seen l).map key).Nodup
      ∧ ∀ a ∈ dedupByKey key seen l, ¬ key a ∈ seen := by
  intro l
  induction l with
  | nil => intro seen; simp [dedupByKey]
  | cons a rest ih =>
    intro seen
    by_cases h : key a ∈ seen
    · rw [dedupByKey, if_pos h]
      exact ih seen
    · rw [dedupByKey, if_neg h]
      obtain ⟨ihn, ihs⟩ := ih (key a :: seen)
      refine ⟨?_, ?_⟩
      · simp only [List.map_cons, List.nodup_cons]
        refine ⟨?_, ihn⟩
        intro hmem
        rcases List.mem_map.mp hmem with ⟨b, hb, hkb⟩
        exact ihs b hb (hkb ▸ List.mem_cons_self _ _)
      · intro b hb
        rcases List.mem_cons.mp hb with hb | hb
        · rw [hb]; exact h
        · intro hbs
          exact ihs b hb (List.mem_cons_of_mem _ hbs)

theorem dedupByKey_find? {α κ : Type} [DecidableEq κ] (key : α → κ) :
    ∀ (l : List α) (seen : List κ) (a : α),
      a ∈ dedupByKey key seen l →
      l.find? (fun b => key b = key a) = some a := by
  intro l
  induction l with
  | nil => intro seen a ha; simp [dedupByKey] at ha
  | cons b rest ih =>
    intro seen a ha
    by_cases h : key b ∈ seen
    · rw [dedupByKey, if_pos h] at ha
      have hka : ¬ key a ∈ seen := (dedupByKey_nodup_aux key rest seen).2 a ha
      have hne : ¬ (key b = key a) := fun hc => hka (hc ▸ h)
      rw [List.find?_cons_of_neg _ (by simpa using hne)]
      exact ih seen a ha
    · rw [dedupByKey, if_neg h] at ha
      rcases List.mem_cons.mp ha with ha | ha
      · subst ha
        rw [List.find?_cons_of_pos _ (by simp)]
      · have hka : ¬ key a ∈ key b :: seen :=
          (dedupByKey_nodup_aux key rest (key b :: seen)).2 a ha
        have hne : ¬ (key b = key a) := by
          intro hc
          exact hka (hc ▸ List.mem_cons_self _ _)
        rw [List.find?_cons_of_neg _ (by simpa using hne)]
        exact ih (key b :: seen) a ha

theorem dedupByKey_mem_self {κ : Type} [DecidableEq κ] :
    ∀ (l : List κ) (seen : List κ) (a : κ), a ∈ l →
      a ∈ dedupByKey (fun x => x) seen l ∨ a ∈ seen := by
  intro l
  induction l with
  | nil => intro seen a ha; simp at ha
  | cons b rest ih =>
    intro seen a ha
    by_cases h : b ∈ seen
    · rw [dedupByKey, if_pos h]
      rcases List.mem_cons.mp ha with ha | ha
      · exact Or.inr (ha ▸ h)
      · exact ih seen a ha
    · rw [dedupByKey, if_neg h]
      rcases List.mem_cons.mp ha with ha | ha
      · exact Or.inl (ha ▸ List.mem_cons_self _ _)
      · rcases ih (b :: seen) a ha with hd | hs
        · exact Or.inl (List.mem_cons_of_mem _ hd)
        · rcases List.mem_cons.mp hs with hs | hs
          · exact Or.inl (hs ▸ List.mem_cons_self _ _)
          · exact Or.inr hs

theorem dedupByKey_subset {α κ : Type} [DecidableEq κ] (key : α → κ) :
    ∀ (l : List α) (seen : List κ) (a : α),
      a ∈ dedupByKey key seen l → a ∈ l := by
  intro l
  induction l with
  | nil => intro seen a ha; simp [dedupByKey] at ha
  | cons b rest ih =>
    intro seen a ha
    by_cases h : key b ∈ seen
    · rw [dedupByKey, if_pos h] at ha
      exact List.mem_cons_of_mem _ (ih seen a ha)
    · rw [dedupByKey, if_neg h] at ha
      rcases List.mem_cons.mp ha with ha | ha
      · exact ha ▸ List.mem_cons_self _ _
      · exact List.mem_cons_of_mem _ (ih (key b :: seen) a ha)

/-- Whitespace trim modelled over the character list. -/
def trimStr (s : String) : String :=
  ⟨((s.data.dropWhile (fun c => c = ' ')).reverse.dropWhile
      (fun c => c = ' ')).reverse⟩

/-- Lower-casing modelled over the character list. -/
def lowerStr (s : String) : String :=
  ⟨s.data.map Char.toLower⟩

/-- Modelled from the spec: string normalization of a producto row (trim
text fields, identifiers untouched). -/
def normProducto (p : Producto) : Producto :=
  { p with nombre_producto := trimStr p.nombre_producto,
           categoria := trimStr p.categoria }

/-- Modelled from the spec: string normalization of a cliente row. -/
def normCliente (c : Cliente) : Cliente :=
  { c with nombre_cliente := trimStr c.nombre_cliente,
           email := trimStr c.email, ciudad := trimStr c.ciudad }

/-- Modelled from the spec: string normalization of a venta row; the
enum-like payment method and channel are trimmed and lower-cased. -/
def normVenta (v : Venta) : Venta :=
  { v with medio_pago := lowerStr (trimStr v.medio_pago),
           canal := lowerStr (trimStr v.canal) }

/-- Modelled from the spec: a producto row is kept when its unit price
coerced to a number and is non-negative. -/
def productoValido (p : Producto) : Bool :=
  match p.precio_unitario with
  | none => false
  | some q => decide (0 ≤ q)

/-- Modelled from the spec: a cliente row is kept when its signup date
parsed. -/
def clienteValido (c : Cliente) : Bool := c.fecha_alta.isSome

/-- Modelled from the spec: a venta row is kept when its date parsed. -/
def ventaValida (v : Venta) : Bool := v.fecha.isSome

/-- Modelled from the spec: a detalle row is kept when its numeric fields
coerced, quantity is positive and unit price non-negative. -/
def detalleValido (d : Detalle) : Bool :=
  match d.cantidad, d.precio_unitario, d.importe with
  | some q, some pu, some _ => decide (0 < q) && decide (0 ≤ pu)
  | _, _, _ => false

/-- Modelled from the spec: per-table cleaning — normalize strings, drop
duplicate-identifier rows keeping the first occurrence, drop rows with
failed coercions, invalid numerics or unparseable dates. -/
def clean_productos (l : List Producto) : List Producto :=
  (dedupByKey (fun p => p.id_producto) [] (l.map normProducto)).filter
    productoValido

/-- Modelled from the spec: cleaning of the clientes table. -/
def clean_clientes (l : List Cliente) : List Cliente :=
  (dedupByKey (fun c => c.id_cliente) [] (l.map normCliente)).filter
    clienteValido

/-- Modelled from the spec: cleaning of the ventas table. -/
def clean_ventas (l : List Venta) : List Venta :=
  (dedupByKey (fun v => v.id_venta) [] (l.map normVenta)).filter
    ventaValida

/-- Modelled from the spec: cleaning of the detalle table; its identifier
is the composite (sale, product) reference. -/
def clean_detalle (l : List Detalle) : List Detalle :=
  (dedupByKey (fun d => (d.id_venta, d.id_producto)) [] l).filter
    detalleValido

/-- Modelled from the spec: `clean_all` (a function of
`aurelion.pipeline_utils`, absent from the repository sources) cleans the
four tables independently and reports (initial, final) row counts per
table. -/
def clean_all (prods : List Producto) (clis : List Cliente)
    (vens : List Venta) (dets : List Detalle) :
    (List Producto × List Cliente × List Venta × List Detalle)
      × List (String × Nat × Nat) :=
  let p := clean_productos prods
  let c := clean_clientes clis
  let v := clean_ventas vens
  let d := clean_detalle dets
  ((p, c, v, d),
   [("productos", prods.length, p.length),
    ("clientes", clis.length, c.length),
    ("ventas", vens.length, v.length),
    ("detalle", dets.length, d.length)])

theorem clean_generic {α κ : Type} [DecidableEq κ] (key : α → κ)
    (valid : α → Bool) (l : List α) :
    (((dedupByKey key [] l).filter valid).map key).Nodup ∧
    ∀ a ∈ (dedupByKey key [] l).filter valid,
      l.find? (fun b => key b = key a) = some a := by
  constructor
  · have h1 := (dedupByKey_nodup_aux key l []).1
    have hsub : ((dedupByKey key [] l).filter valid).Sublist
        (dedupByKey key [] l) := List.filter_sublist _
    exact List.Nodup.sublist (hsub.map key) h1
  · intro a ha
    exact dedupByKey_find? key l [] a (List.mem_of_mem_filter ha)

/-- C7: After cleaning, no two rows of any of the four tables share the
same identifier (composite sale-product reference for detalle), and every
cleaned row is the first occurrence of its identifier in the normalized
input table: duplicates are collapsed keeping the first occurrence in
original order. -/
theorem clean_all_unique_ids (prods : List Producto) (clis : List Cliente)
    (vens : List Venta) (dets : List Detalle) :
    (((clean_all prods clis vens dets).1.1).map
        (fun p => p.id_producto)).Nodup ∧
    (((clean_all prods clis vens dets).1.2.1).map
        (fun c => c.id_cliente)).Nodup ∧
    (((clean_all prods clis vens dets).1.2.2.1).map
        (fun v => v.id_venta)).Nodup ∧
    (((clean_all prods clis vens dets).1.2.2.2).map
        (fun d => (d.id_venta, d.id_producto))).Nodup ∧
    (∀ p ∈ (clean_all prods clis vens dets).1.1,
      (prods.map normProducto).find?
        (fun b => b.id_producto = p.id_producto) = some p) ∧
    (∀ c ∈ (clean_all prods clis vens dets).1.2.1,
      (clis.map normCliente).find?
        (fun b => b.id_cliente = c.id_cliente) = some c) ∧
    (∀ v ∈ (clean_all prods clis vens dets).1.2.2.1,
      (vens.map normVenta).find?
        (fun b => b.id_venta = v.id_venta) = some v) ∧
    (∀ d ∈ (clean_all prods clis vens dets).1.2.2.2,
      dets.find? (fun b =>
        (b.id_venta, b.id_producto) = (d.id_venta, d.id_producto))
        = some d) := by
  refine ⟨?_, ?_, ?_, ?_, ?_, ?_, ?_, ?_⟩
  · exact (clean_generic (fun p : Producto => p.id_producto) productoValido
      (prods.map normProducto)).1
  · exact (clean_generic (fun c : Cliente => c.id_cliente) clienteValido
      (clis.map normCliente)).1
  · exact (clean_generic (fun v : Venta => v.id_venta) ventaValida
      (vens.map normVenta)).1
  · exact (clean_generic (fun d : Detalle => (d.id_venta, d.id_producto))
      detalleValido dets).1
  · exact (clean_generic (fun p : Producto => p.id_producto) productoValido
      (prods.map normProducto)).2
  · exact (clean_generic (fun c : Cliente => c.id_cliente) clienteValido
      (clis.map normCliente)).2
  · exact (clean_generic (fun v : Venta => v.id_venta) ventaValida
      (vens.map normVenta)).2
  · exact (clean_generic (fun d : Detalle => (d.id_venta, d.id_producto))
      detalleValido dets).2

/-- First of the two duplicated producto rows. -/
def prodPan : Producto :=
  { id_producto := 1, nombre_producto := "Pan", categoria := "Alim",
    precio_unitario := some 2 }

/-- Two producto rows sharing identifier 1. -/
def prodsDup : List Producto :=
  [prodPan,
   { id_producto := 1, nombre_producto := "Pan2", categoria := "Alim",
     precio_unitario := some 3 }]

/-- Witness for C7: cleaning the duplicated productos table keeps a
single row, the first occurrence. -/
theorem clean_all_unique_ids_witness :
    (((clean_all prodsDup [] [] []).1.1).map
        (fun p => p.id_producto)).Nodup ∧
    (prodsDup.map normProducto).find?
      (fun b => b.id_producto = (normProducto prodPan).id_producto)
      = some (normProducto prodPan) :=
  ⟨(clean_all_unique_ids prodsDup [] [] []).1,
   (clean_all_unique_ids prodsDup [] [] []).2.2.2.2.1
     (normProducto prodPan) (by decide)⟩

/-! ### Product-name enrichment (cargar_datasets, source lines 182-188) -/

/-- Deduplicated (id_producto, nombre_producto) pairs of the productos
table (source line 183: drop_duplicates keeps the first occurrence of
each exact pair). -/
def nombre_map (productos : List Producto) : List (Nat × String) :=
  dedupByKey (fun x => x) []
    (productos.map (fun p => (p.id_producto, p.nombre_producto)))

/-- Left merge of detalle with the name map on id_producto (source line
184): each detalle row is paired with every matching name; a row without
a match is kept once with a null name. -/
def merge_nombre (detalle : List Detalle) (nmap : List (Nat × String)) :
    List Detalle :=
  detalle.flatMap (fun d =>
    match nmap.filter (fun m => m.1 = d.id_producto) with
    | [] => [{ d with nombre_producto := none }]
    | ms => ms.map (fun m => { d with nombre_producto := some m.2 }))

/-- Enrichment guard of `cargar_datasets` (source line 182): merge only
when detalle lacks the name column while carrying id_producto and
productos carries the name column. -/
def enriquecer_detalle (cols : TablasCargadas) (detalle : List Detalle)
    (productos : List Producto) : List Detalle :=
  if ¬ "nombre_producto" ∈ cols.detalle_cols
      ∧ "id_producto" ∈ cols.detalle_cols
      ∧ "nombre_producto" ∈ cols.productos_cols
  then merge_nombre detalle (nombre_map productos)
  else detalle

theorem nombre_map_mem {productos : List Producto} {m : Nat × String}
    (hm : m ∈ nombre_map productos) :
    ∃ p ∈ productos, p.id_producto = m.1 ∧ p.nombre_producto = m.2 := by
  have h1 := dedupByKey_subset (fun x => x) _ [] m hm
  rcases List.mem_map.mp h1 with ⟨p, hp, he⟩
  exact ⟨p, hp, by rw [← he], by rw [← he]⟩

theorem nombre_map_complete {productos : List Producto} {p : Producto}
    (hp : p ∈ productos) :
    (p.id_producto, p.nombre_producto) ∈ nombre_map productos := by
  have h1 : (p.id_producto, p.nombre_producto)
      ∈ productos.map (fun q => (q.id_producto, q.nombre_producto)) :=
    List.mem_map.mpr ⟨p, hp, rfl⟩
  rcases dedupByKey_mem_self _ [] _ h1 with h | h
  · exact h
  · simp at h

/-- C8: When the detalle table already carries the denormalized
product-name column, enrichment leaves it untouched (names preserved);
otherwise the name is filled by left join with the productos pairs, and a
line whose product identifier has no match keeps a null name and is not
dropped. -/
theorem enriquecer_detalle_correct (cols : TablasCargadas)
    (detalle : List Detalle) (productos : List Producto) :
    ("nombre_producto" ∈ cols.detalle_cols →
      enriquecer_detalle cols detalle productos = detalle) ∧
    (∀ d ∈ detalle,
      (∀ p ∈ productos, ¬ p.id_producto = d.id_producto) →
      { d with nombre_producto := none }
        ∈ merge_nombre detalle (nombre_map productos)) ∧
    (∀ e ∈ merge_nombre detalle (nombre_map productos),
      ∃ d ∈ detalle, e.id_venta = d.id_venta
        ∧ e.id_producto = d.id_producto
        ∧ ((e.nombre_producto = none
              ∧ ∀ p ∈ productos, ¬ p.id_producto = e.id_producto)
           ∨ (∃ p ∈ productos, p.id_producto = e.id_producto
                ∧ e.nombre_producto = some p.nombre_producto))) := by
  refine ⟨?_, ?_, ?_⟩
  · intro h
    rw [enriquecer_detalle, if_neg (by simp [h])]
  · intro d hd hnone
    have hfil : (nombre_map productos).filter
        (fun m => m.1 = d.id_producto) = [] := by
      rw [List.filter_eq_nil_iff]
      intro m hm
      rcases nombre_map_mem hm with ⟨p, hp, hid, _⟩
      simp only [decide_eq_true_eq]
      intro hc
      exact hnone p hp (by rw [hid, hc])
    rw [merge_nombre]
    refine List.mem_flatMap.mpr ⟨d, hd, ?_⟩
    rw [hfil]
    exact List.mem_singleton.mpr rfl
  · intro e he
    rcases List.mem_flatMap.mp he with ⟨d, hd, hed⟩
    cases hfil : (nombre_map productos).filter
        (fun m => m.1 = d.id_producto) with
    | nil =>
      rw [hfil] at hed
      have he2 : e = { d with nombre_producto := none } :=
        List.mem_singleton.mp hed
      subst he2
      refine ⟨d, hd, rfl, rfl, Or.inl ⟨rfl, ?_⟩⟩
      intro p hp hc
      have hmem : (p.id_producto, p.nombre_producto) ∈ nombre_map productos :=
        nombre_map_complete hp
      have : (p.id_producto, p.nombre_producto)
          ∈ (nombre_map productos).filter (fun m => m.1 = d.id_producto) :=
        List.mem_filter.mpr ⟨hmem, by simpa using hc⟩
      rw [hfil] at this
      simp at this
    | cons m ms =>
      rw [hfil] at hed
      rcases List.mem_map.mp hed with ⟨m1, hm1, he2⟩
      subst he2
      have hm1f : m1 ∈ (nombre_map productos).filter
          (fun m => m.1 = d.id_producto) := by
        rw [hfil]
        exact hm1
      have hm2 := List.mem_filter.mp hm1f
      rcases nombre_map_mem hm2.1 with ⟨p, hp, hid, hnom⟩
      have hm1d : m1.1 = d.id_producto := by simpa using hm2.2
      refine ⟨d, hd, rfl, rfl, Or.inr ⟨p, hp, ?_, ?_⟩⟩
      · show p.id_producto = d.id_producto
        rw [hid, hm1d]
      · show some m1.2 = some p.nombre_producto
        rw [hnom]

/-- Loaded tables where detalle also carries the name column. -/
def tablasFullConNombre : TablasCargadas :=
  { tablasFull with
    detalle_cols := ["id_venta", "id_producto", "cantidad",
      "precio_unitario", "importe", "nombre_producto"] }

/-- Detalle line referencing an existing product. -/
def detalle1 : Detalle :=
  { id_venta := 100, id_producto := 1, nombre_producto := none,
    cantidad := some 3, precio_unitario := some 2, importe := some 6 }

/-- Detalle line referencing the non-existent product 99. -/
def detalle99 : Detalle :=
  { id_venta := 100, id_producto := 99, nombre_producto := none,
    cantidad := some 1, precio_unitario := some 2, importe := some 2 }

/-- Witness for C8: with the name column present enrichment is the
identity, and the orphan line 99 is kept with a null name by the merge. -/
theorem enriquecer_detalle_correct_witness :
    enriquecer_detalle tablasFullConNombre [detalle1] [prodPan]
      = [detalle1] ∧
    { detalle99 with nombre_producto := none }
      ∈ merge_nombre [detalle1, detalle99] (nombre_map [prodPan]) :=
  ⟨(enriquecer_detalle_correct tablasFullConNombre [detalle1] [prodPan]).1
     (by decide),
   (enriquecer_detalle_correct tablasFullConNombre [detalle1, detalle99]
      [prodPan]).2.1 detalle99 (by decide) (by decide)⟩

/-! ### Referential integrity (modelled from the spec) -/

/-- Orphan counts per foreign-key relation. -/
structure RIStats where
  detalle_sin_venta : Nat
  detalle_sin_producto : Nat
  ventas_sin_cliente : Nat
deriving DecidableEq, Repr

/-- Modelled from the spec: number of child rows whose key has no match
among the parent keys; an empty table on either side of the relationship
yields zero orphans, not an error. -/
def orphanCount {α : Type} (child : List α) (key : α → Nat)
    (parentKeys : List Nat) : Nat :=
  if child.isEmpty || parentKeys.isEmpty then 0
  else (child.filter (fun c => ¬ key c ∈ parentKeys)).length

/-- Modelled from the spec: `validate_referential_integrity` (a function
of `aurelion.pipeline_utils`, absent from the repository sources) takes
the four tables and returns a boolean full-consistency flag together with
a statistics record counting orphaned rows per foreign-key relation; it
is advisory and never raises. -/
def validate_referential_integrity (prods : List Producto)
    (clis : List Cliente) (vens : List Venta) (dets : List Detalle) :
    Bool × RIStats :=
  let stats : RIStats :=
    { detalle_sin_venta :=
        orphanCount dets (fun d => d.id_venta)
          (vens.map (fun v => v.id_venta)),
      detalle_sin_producto :=
        orphanCount dets (fun d => d.id_producto)
          (prods.map (fun p => p.id_producto)),
      ventas_sin_cliente :=
        orphanCount vens (fun v => v.id_cliente)
          (clis.map (fun c => c.id_cliente)) }
  ((stats.detalle_sin_venta == 0) && (stats.detalle_sin_producto == 0)
     && (stats.ventas_sin_cliente == 0), stats)

/-! ### Integrator and Metrics Engine wiring -/

/-- Modelled from the spec: the Integrator joins detalle with ventas by
inner equi-join on id_venta (a line without a matching sale is excluded)
and resolves the product name, preferring the denormalized name carried
by the line and falling back to the productos table. -/
def integrate (dets : List Detalle) (vens : List Venta)
    (prods : List Producto) : List FactRow :=
  dets.flatMap (fun d =>
    match vens.find? (fun v => v.id_venta = d.id_venta) with
    | none => []
    | some v =>
        [{ id_venta := d.id_venta,
           fecha := v.fecha.getD (0, 0, 0),
           id_cliente := v.id_cliente,
           medio_pago := v.medio_pago,
           canal := v.canal,
           id_producto := d.id_producto,
           nombre_producto :=
             match d.nombre_producto with
             | some n => n
             | none =>
                 ((prods.find? (fun p => p.id_producto = d.id_producto)).map
                   (fun p => p.nombre_producto)).getD "",
           cantidad := d.cantidad.getD 0,
           precio_unitario := d.precio_unitario.getD 0,
           importe := d.importe.getD 0 }])

/-- Year-month bucket of a date. -/
def mesDe (f : Fecha) : Nat × Nat := (f.1, f.2.1)

/-- Collect values per key, preserving insertion grouping. -/
def addValTo {κ : Type} [DecidableEq κ] (k : κ) (v : ℚ) :
    List (κ × List ℚ) → List (κ × List ℚ)
  | [] => [(k, [v])]
  | (k1, vs) :: rest =>
      if k = k1 then (k1, v :: vs) :: rest
      else (k1, vs) :: addValTo k v rest

/-- Group the elements of a list by key, collecting their values. -/
def groupVals {α κ : Type} [DecidableEq κ] (key : α → κ) (val : α → ℚ) :
    List α → List (κ × List ℚ)
  | [] => []
  | a :: rest => addValTo (key a) (val a) (groupVals key val rest)

/-- Chronological order on (year, month) buckets. -/
def mesLe (a b : (Nat × Nat) × ℚ) : Bool :=
  decide (a.1.1 < b.1.1 ∨ (a.1.1 = b.1.1 ∧ a.1.2 ≤ b.1.2))

/-- Modelled from the spec: monthly average ticket — one total per sale,
then the mean of sale totals per calendar month, sorted chronologically. -/
def ticket_promedio_mensual (rows : List FactRow) :
    List ((Nat × Nat) × ℚ) :=
  let porVenta := groupSum (fun r => (r.id_venta, mesDe r.fecha))
    (fun r => r.importe) rows
  let porMes := groupVals (fun e => e.1.2) (fun e => e.2) porVenta
  sortLe mesLe
    (porMes.map (fun e => (e.1, e.2.sum / (e.2.length : ℚ))))

/-- Metrics bundle assembled by `calcular_metricas` (source lines
255-262). -/
structure Metricas where
  ticket_promedio : List ((Nat × Nat) × ℚ)
  top5_productos : List ProdTotal
  medios_pago : List (String × ℚ)
  abc_productos : List ((Nat × String) × ℚ × String)
  abc_clientes : List (Nat × ℚ × String)
  df_completo : List FactRow
deriving DecidableEq, Repr

/-- Embedding of `calcular_metricas` (source lines 244-264): integrate,
then derive the four metrics and the ABC classifications of the
per-product and per-customer revenue aggregates. -/
def calcular_metricas (vens : List Venta) (dets : List Detalle)
    (prods : List Producto) (_clis : List Cliente) : Metricas :=
  let df_completo := integrate dets vens prods
  { ticket_promedio := ticket_promedio_mensual df_completo,
    top5_productos := top5_productos_por_importe df_completo,
    medios_pago := medios_pago_pct df_completo,
    abc_productos := clasificacion_abc (productos_importe df_completo),
    abc_clientes := clasificacion_abc (clientes_importe df_completo),
    df_completo := df_completo }

/-! ### Pipeline (cargar_datasets and ejecutar_pipeline) -/

/-- Pipeline stages in execution order. -/
inductive Stage where
  | load
  | ri
  | clean
  | metrics
  | export
deriving DecidableEq, Repr

/-- Raw input handed to the pipeline: the four tables as read from disk
together with their column sets. -/
structure RawInput where
  cols : TablasCargadas
  productos : List Producto
  clientes : List Cliente
  ventas : List Venta
  detalle : List Detalle
deriving DecidableEq, Repr

/-- Embedding of `cargar_datasets` (source lines 129-217): schema
validation raises on missing required columns, then the optional
product-name enrichment runs; the referential-integrity call inside load
only logs and never changes the outcome. -/
def cargar_datasets (raw : RawInput) :
    Except SchemaError
      (List Producto × List Cliente × List Venta × List Detalle) :=
  match validar_columnas raw.cols with
  | .error e => .error e
  | .ok _ =>
      .ok (raw.productos, raw.clientes, raw.ventas,
        enriquecer_detalle raw.cols raw.detalle raw.productos)

/-- Embedding of `limpiar_datos` (source lines 224-239): delegate to
clean_all; the statistics only feed logging. -/
def limpiar_datos (prods : List Producto) (clis : List Cliente)
    (vens : List Venta) (dets : List Detalle) :
    List Producto × List Cliente × List Venta × List Detalle :=
  (clean_all prods clis vens dets).1

/-- Files written by `exportar_resultados` (source lines 295-313),
modelled as the emitted export events. -/
def exportar_resultados (_m : Metricas) : List String :=
  ["export/out_top5.csv", "export/out_mediopago.csv",
   "export/out_abc_productos.csv", "export/out_abc_clientes.csv",
   "docs/resumen_mensual.md"]

/-- Value returned by a successful pipeline run (source line 381). -/
structure PipelineResult where
  metricas : Metricas
  productos : List Producto
  clientes : List Cliente
  ventas : List Venta
  detalle : List Detalle
deriving DecidableEq, Repr

/-- Embedding of `ejecutar_pipeline` (source lines 351-389): load →
referential-integrity check → clean → metrics → (unless fastmode) export.
Returns the outcome, the stages entered in order, and the export events
emitted. -/
def ejecutar_pipeline (raw : RawInput) (fastmode : Bool) :
    Except SchemaError PipelineResult × List Stage × List String :=
  match cargar_datasets raw with
  | .error e => (.error e, [Stage.load], [])
  | .ok (prods, clis, vens, dets) =>
    let _ri := validate_referential_integrity prods clis vens dets
    let cleaned := limpiar_datos prods clis vens dets
    let m := calcular_metricas cleaned.2.2.1 cleaned.2.2.2 cleaned.1
      cleaned.2.1
    (.ok { metricas := m, productos := cleaned.1, clientes := cleaned.2.1,
           ventas := cleaned.2.2.1, detalle := cleaned.2.2.2 },
     [Stage.load, Stage.ri, Stage.clean, Stage.metrics]
       ++ (if fastmode then [] else [Stage.export]),
     if fastmode then [] else exportar_resultados m)

/-- Full stage sequence of a run. -/
def stageSeq (fastmode : Bool) : List Stage :=
  [Stage.load, Stage.ri, Stage.clean, Stage.metrics]
    ++ (if fastmode then [] else [Stage.export])

/-- C5: The referential-integrity check returns a boolean consistency
flag that is true exactly when every per-relation orphan count is zero,
an empty table on either side of a relation yields zero orphans rather
than an error, and the check never aborts the pipeline: whenever loading
succeeds the run still enters the integrity, cleaning and metrics stages,
whatever the flag's value. -/
theorem validate_referential_integrity_correct (prods : List Producto)
    (clis : List Cliente) (vens : List Venta) (dets : List Detalle)
    (raw : RawInput) (fastmode : Bool) :
    ((validate_referential_integrity prods clis vens dets).1 = true
      ↔ ((validate_referential_integrity prods clis vens
            dets).2.detalle_sin_venta = 0
         ∧ (validate_referential_integrity prods clis vens
             dets).2.detalle_sin_producto = 0
         ∧ (validate_referential_integrity prods clis vens
             dets).2.ventas_sin_cliente = 0)) ∧
    (dets = [] ∨ vens = [] →
      (validate_referential_integrity prods clis vens
        dets).2.detalle_sin_venta = 0) ∧
    (dets = [] ∨ prods = [] →
      (validate_referential_integrity prods clis vens
        dets).2.detalle_sin_producto = 0) ∧
    (vens = [] ∨ clis = [] →
      (validate_referential_integrity prods clis vens
        dets).2.ventas_sin_cliente = 0) ∧
    (∀ tablas, cargar_datasets raw = .ok tablas →
      Stage.ri ∈ (ejecutar_pipeline raw fastmode).2.1
        ∧ Stage.clean ∈ (ejecutar_pipeline raw fastmode).2.1
        ∧ Stage.metrics ∈ (ejecutar_pipeline raw fastmode).2.1) := by
  refine ⟨?_, ?_, ?_, ?_, ?_⟩
  · simp [validate_referential_integrity, and_assoc]
  · intro h
    rcases h with h | h <;> simp [validate_referential_integrity,
      orphanCount, h]
  · intro h
    rcases h with h | h <;> simp [validate_referential_integrity,
      orphanCount, h]
  · intro h
    rcases h with h | h <;> simp [validate_referential_integrity,
      orphanCount, h]
  · intro tablas htab
    obtain ⟨p, c, v, d⟩ := tablas
    cases fastmode <;> simp [ejecutar_pipeline, htab]

/-- Raw input with complete columns, one product, no sales. -/
def rawOk : RawInput :=
  { cols := tablasFull, productos := [prodPan], clientes := [],
    ventas := [], detalle := [] }

/-- Raw input whose productos table lacks a required column. -/
def rawBad : RawInput :=
  { cols := tablasBad, productos := [prodPan], clientes := [],
    ventas := [], detalle := [] }

/-- Witness for C5: an empty parent table yields zero orphans, and the
pipeline still reaches the cleaning stage after a successful load. -/
theorem validate_referential_integrity_correct_witness :
    (validate_referential_integrity [] [] []
      [detalle99]).2.detalle_sin_venta = 0 ∧
    Stage.clean ∈ (ejecutar_pipeline rawOk false).2.1 :=
  ⟨(validate_referential_integrity_correct [] [] [] [detalle99]
      rawOk false).2.1 (Or.inr rfl),
   ((validate_referential_integrity_correct [] [] [] [detalle99]
      rawOk false).2.2.2.2 ([prodPan], [], [], []) rfl).2.1⟩

/-- C9: The pipeline stages run strictly in the order load → integrity
check → clean → metrics → export: the trace of entered stages is always a
prefix of that sequence, a fatal load error ends the run right after the
load stage, and a successful run enters every stage, cleaning exactly the
loaded tables, computing the metrics from exactly the cleaned tables, and
integrating exactly the cleaned tables. -/
theorem ejecutar_pipeline_sequencing (raw : RawInput) (fastmode : Bool) :
    ((ejecutar_pipeline raw fastmode).2.1
      = (stageSeq fastmode).take
          ((ejecutar_pipeline raw fastmode).2.1).length) ∧
    (∀ e, (ejecutar_pipeline raw fastmode).1 = .error e →
      (ejecutar_pipeline raw fastmode).2.1 = [Stage.load]
        ∧ cargar_datasets raw = .error e) ∧
    (∀ res, (ejecutar_pipeline raw fastmode).1 = .ok res →
      (ejecutar_pipeline raw fastmode).2.1 = stageSeq fastmode ∧
      ∃ tablas, cargar_datasets raw = .ok tablas ∧
        (res.productos, res.clientes, res.ventas, res.detalle)
          = limpiar_datos tablas.1 tablas.2.1 tablas.2.2.1 tablas.2.2.2 ∧
        res.metricas = calcular_metricas res.ventas res.detalle
          res.productos res.clientes ∧
        res.metricas.df_completo
          = integrate res.detalle res.ventas res.productos) := by
  cases hc : cargar_datasets raw with
  | error e =>
    refine ⟨?_, ?_, ?_⟩
    · cases fastmode <;> simp [ejecutar_pipeline, hc, stageSeq]
    · intro e2 he2
      simp only [ejecutar_pipeline, hc] at he2 ⊢
      have : e = e2 := by simpa using he2
      subst this
      exact ⟨by trivial, by trivial⟩
    · intro res hres
      simp only [ejecutar_pipeline, hc] at hres
      exact Except.noConfusion hres
  | ok tablas =>
    obtain ⟨p, c, v, d⟩ := tablas
    refine ⟨?_, ?_, ?_⟩
    · cases fastmode <;> simp [ejecutar_pipeline, hc, stageSeq]
    · intro e2 he2
      simp only [ejecutar_pipeline, hc] at he2
      exact Except.noConfusion he2
    · intro res hres
      simp only [ejecutar_pipeline, hc] at hres ⊢
      have hres2 := hres
      rw [Except.ok.injEq] at hres2
      subst hres2
      refine ⟨?_, (p, c, v, d), rfl, rfl, rfl, rfl⟩
      cases fastmode <;> simp [stageSeq]

/-- Successful pipeline result on `rawOk`. -/
def resOk : PipelineResult :=
  { metricas := calcular_metricas (clean_ventas []) (clean_detalle [])
      (clean_productos [prodPan]) (clean_clientes []),
    productos := clean_productos [prodPan],
    clientes := clean_clientes [],
    ventas := clean_ventas [],
    detalle := clean_detalle [] }

/-- Witness for C9: a successful run enters the full stage sequence and a
failing load stops after the load stage. -/
theorem ejecutar_pipeline_sequencing_witness :
    (ejecutar_pipeline rawOk false).2.1 = stageSeq false ∧
    (ejecutar_pipeline rawBad true).2.1 = [Stage.load] :=
  ⟨((ejecutar_pipeline_sequencing rawOk false).2.2 resOk rfl).1,
   ((ejecutar_pipeline_sequencing rawBad true).2.1
      ⟨"productos", ["categoria"]⟩ rfl).1⟩

/-- C10: A fastmode run returns exactly the same value as a full run on
the same input — the same Except outcome carrying the same metrics bundle
and the same four cleaned tables — and the flag only suppresses the
export stage's side effects: fastmode emits no export events while the
full run emits the export files of the computed metrics. -/
theorem ejecutar_pipeline_fastmode_same (raw : RawInput) :
    (ejecutar_pipeline raw true).1 = (ejecutar_pipeline raw false).1 ∧
    (ejecutar_pipeline raw true).2.2 = [] ∧
    (∀ res, (ejecutar_pipeline raw false).1 = .ok res →
      (ejecutar_pipeline raw false).2.2
        = exportar_resultados res.metricas) := by
  cases hc : cargar_datasets raw with
  | error e =>
    refine ⟨?_, ?_, ?_⟩
    · simp [ejecutar_pipeline, hc]
    · simp [ejecutar_pipeline, hc]
    · intro res hres
      simp only [ejecutar_pipeline, hc] at hres
      exact Except.noConfusion hres
  | ok tablas =>
    obtain ⟨p, c, v, d⟩ := tablas
    refine ⟨?_, ?_, ?_⟩
    · simp [ejecutar_pipeline, hc]
    · simp [ejecutar_pipeline, hc]
    · intro res hres
      simp [ejecutar_pipeline, hc, exportar_resultados]

/-- Witness for C10: the full run on `rawOk` emits exactly the export
files of its metrics bundle, and the fastmode run emits none yet returns
the same value. -/
theorem ejecutar_pipeline_fastmode_same_witness :
    (ejecutar_pipeline rawOk true).1 = (ejecutar_pipeline rawOk false).1 ∧
    (ejecutar_pipeline rawOk false).2.2
      = exportar_resultados resOk.metricas :=
  ⟨(ejecutar_pipeline_fastmode_same rawOk).1,
   (ejecutar_pipeline_fastmode_same rawOk).2.2 resOk rfl⟩
